import Mathlib

/-!
Shallow embedding of the `peakdetect` Go package (MicahParks/peakdetect) and
verification of its specification.

Embedding conventions:

* Go `float64` values are embedded as `ℚ` (exact arithmetic, computable).
* `math.Sqrt` appears in the source only (a) in values returned to the caller
  and (b) via `peakDetector.prevStdDev`, which is used solely in the comparison
  `math.Abs(value-p.prevMean) > p.threshold*p.prevStdDev`.  The embedding
  therefore carries the *variance* where the source carries the standard
  deviation, and decides that comparison with the rational predicate
  `gtMulSqrt`, which is proved (lemma `gtMulSqrt_iff_real`) to agree with the
  real-number inequality `threshold * Real.sqrt variance < |value - mean|`,
  including Go's NaN semantics (`math.Sqrt` of a negative number is NaN and
  every `>` comparison against NaN is false).
* Go slice indexing panics when out of bounds; the embedding returns `none`.
* The Go method `(p *peakDetector) Initialize` mutates its receiver and
  returns an `error`; the embedding returns the updated state paired with
  `Option InitError` so that state changes on the error path are observable.
* Go `uint` counters are embedded as `ℕ` (no overflow occurs at realistic
  call counts).
-/

/-- Signal is a set of enums that indicates what type of peak, if any, a
particular value is (Go: `SignalNegative = -1`, `SignalNeutral = 0`,
`SignalPositive = 1`). -/
inductive Signal where
  | negative : Signal
  | neutral : Signal
  | positive : Signal
deriving DecidableEq

/-- Flipping a signal: `Positive ↦ Negative`, `Negative ↦ Positive`,
`Neutral ↦ Neutral` (used to state the symmetry property). -/
def Signal.flip : Signal → Signal
  | Signal.negative => Signal.positive
  | Signal.neutral => Signal.neutral
  | Signal.positive => Signal.negative

/-- The only error of the package: `ErrInvalidInitialValues`. -/
inductive InitError where
  | invalidInitialValues : InitError
deriving DecidableEq

/-- Decides `t * Real.sqrt x < a` for `0 ≤ a` over the rationals, with Go's
NaN semantics when `x < 0` (`math.Sqrt` of a negative number is NaN, and a
`>` comparison involving NaN is false).  Characterised by
`gtMulSqrt_iff_real`. -/
def gtMulSqrt (a t x : ℚ) : Bool :=
  if x < 0 then false
  else if 0 ≤ t then decide (t ^ 2 * x < a ^ 2)
  else decide (0 < a ∨ 0 < x)

/-- Whether Go's `math.Sqrt` returns NaN on the (non-NaN) argument `x`:
exactly when `x` is negative. -/
def goSqrtIsNaN (x : ℚ) : Bool := decide (x < 0)

/-- State of `movingMeanStdDev`.  The Go field `cacheLen` is the `float64`
image of `cacheLenU` and is represented by the cast `(cacheLenU : ℚ)`. -/
structure MovingMeanStdDev where
  cache : List ℚ
  cacheLenU : ℕ
  index : ℕ
  prevMean : ℚ
  prevVariance : ℚ
deriving DecidableEq

/-- The Go zero value of `movingMeanStdDev` (as allocated by
`NewPeakDetector`). -/
def MovingMeanStdDev.new : MovingMeanStdDev :=
  { cache := [], cacheLenU := 0, index := 0, prevMean := 0, prevVariance := 0 }

/-- One iteration of the Welford loop in the Go method `initialize` of
`movingMeanStdDev`.  The
accumulator is `(prevMean, sumOfSquares, count)` where `count` is the number
of values folded in so far (the Go loop variable `i` equals `count + 1` when
the next value is processed). -/
def welfordStep (acc : ℚ × ℚ × ℕ) (value : ℚ) : ℚ × ℚ × ℕ :=
  let prevMean := acc.1
  let sumOfSquares := acc.2.1
  let i : ℕ := acc.2.2 + 1
  let mean := prevMean + (value - prevMean) / (i : ℚ)
  (mean, sumOfSquares + (value - prevMean) * (value - mean), i)

/-- The Go method `initialize` of `movingMeanStdDev` (named `initialise`
here).  Returns `none` when `initialValues` is
empty (the Go code would panic on `initialValues[0]`; its caller guards this).
Returns the new state, the mean, and the population variance; the Go function
returns `(mean, math.Sqrt(variance))` (see the header note on `math.Sqrt`).
Note that `m.index` is NOT reset. -/
def MovingMeanStdDev.initialise (m : MovingMeanStdDev) :
    List ℚ → Option (MovingMeanStdDev × ℚ × ℚ)
  | [] => none
  | x :: xs =>
    let cacheLenU : ℕ := xs.length + 1
    let acc := xs.foldl welfordStep (x, 0, 1)
    let prevVariance := acc.2.1 / (cacheLenU : ℚ)
    some ({ m with
              cache := x :: xs
              cacheLenU := cacheLenU
              prevMean := acc.1
              prevVariance := prevVariance },
          acc.1, prevVariance)

/-- `movingMeanStdDev.next`.  Returns `none` when `m.index` is out of bounds
of `m.cache` (Go panics there).  Returns the new state, the mean, and the
variance; the Go function returns `(mean, math.Sqrt(variance))` with no
clamping of the variance. -/
def MovingMeanStdDev.next (m : MovingMeanStdDev) (value : ℚ) :
    Option (MovingMeanStdDev × ℚ × ℚ) :=
  match m.cache[m.index]? with
  | none => none
  | some outOfWindow =>
    let cache := m.cache.set m.index value
    let index := m.index + 1
    let index := if index = m.cacheLenU then 0 else index
    let newMean := m.prevMean + (value - outOfWindow) / (m.cacheLenU : ℚ)
    let prevVariance := m.prevVariance +
      (value - newMean + outOfWindow - m.prevMean) * (value - outOfWindow) / (m.cacheLenU : ℚ)
    some ({ m with
              cache := cache
              index := index
              prevMean := newMean
              prevVariance := prevVariance },
          newMean, prevVariance)

/-- A finite sequence of `movingMeanStdDev.next` calls, keeping the state. -/
def MovingMeanStdDev.updates (m : MovingMeanStdDev) : List ℚ → Option MovingMeanStdDev
  | [] => some m
  | v :: vs =>
    match m.next v with
    | none => none
    | some r => r.1.updates vs

/-- State of `peakDetector`.  The Go field `prevStdDev` holds
`math.Sqrt(prevVariance)` and is used only in the signal comparison; the
embedding carries `prevVariance` instead (see the header note). -/
structure PeakDetector where
  index : ℕ
  influence : ℚ
  lag : ℕ
  movingMeanStdDev : MovingMeanStdDev
  prevMean : ℚ
  prevVariance : ℚ
  prevValue : ℚ
  threshold : ℚ
deriving DecidableEq

/-- `NewPeakDetector`: the Go zero value with a fresh `movingMeanStdDev`. -/
def NewPeakDetector : PeakDetector :=
  { index := 0, influence := 0, lag := 0, movingMeanStdDev := MovingMeanStdDev.new,
    prevMean := 0, prevVariance := 0, prevValue := 0, threshold := 0 }

/-- `peakDetector.Initialize`.  Mirrors the Go assignment order: `p.lag` is
set to the seed length BEFORE the emptiness check, so the error path mutates
`lag`.  `MovingMeanStdDev.initialise` is `none` exactly on the empty list,
which is exactly Go's `p.lag == 0` error condition.  On success `prevValue`
is `initialValues[p.lag-1]`, i.e. the last element, here `getLastD 0`. -/
def PeakDetector.initialise (p : PeakDetector) (influence threshold : ℚ)
    (initialValues : List ℚ) : PeakDetector × Option InitError :=
  let p1 := { p with lag := initialValues.length }
  match p1.movingMeanStdDev.initialise initialValues with
  | none => (p1, some InitError.invalidInitialValues)
  | some r =>
    ({ p1 with
         influence := influence
         threshold := threshold
         movingMeanStdDev := r.1
         prevMean := r.2.1
         prevVariance := r.2.2
         prevValue := initialValues.getLastD 0 }, none)

/-- `peakDetector.Next`.  The comparison
`math.Abs(value-p.prevMean) > p.threshold*p.prevStdDev` (with
`prevStdDev = math.Sqrt prevVariance`) is decided by `gtMulSqrt`;
see `gtMulSqrt_iff_real`. -/
def PeakDetector.next (p : PeakDetector) (value : ℚ) : Option (PeakDetector × Signal) :=
  let index := p.index + 1
  let index := if index = p.lag then 0 else index
  let isSignal := gtMulSqrt |value - p.prevMean| p.threshold p.prevVariance
  let signal :=
    if isSignal then
      (if p.prevMean < value then Signal.positive else Signal.negative)
    else Signal.neutral
  let value :=
    if isSignal then p.influence * value + (1 - p.influence) * p.prevValue
    else value
  match p.movingMeanStdDev.next value with
  | none => none
  | some r =>
    some ({ p with
              index := index
              movingMeanStdDev := r.1
              prevMean := r.2.1
              prevVariance := r.2.2
              prevValue := value }, signal)

/-- Loop body of `peakDetector.NextBatch` (appends each new signal). -/
def nextBatchStep (acc : Option (PeakDetector × List Signal)) (v : ℚ) :
    Option (PeakDetector × List Signal) :=
  match acc with
  | none => none
  | some (q, signals) =>
    match q.next v with
    | none => none
    | some (q2, s) => some (q2, signals ++ [s])

/-- `peakDetector.NextBatch`: a loop of `Next` calls collecting the signals. -/
def PeakDetector.nextBatch (p : PeakDetector) (values : List ℚ) :
    Option (PeakDetector × List Signal) :=
  values.foldl nextBatchStep (some (p, []))

/-- Sequential processing as the spec words it: "applies `process` to each
value in order, producing one signal per input in the same order".  Written
from the spec for comparison with `PeakDetector.nextBatch`. -/
def processSeqSpec (p : PeakDetector) : List ℚ → Option (PeakDetector × List Signal)
  | [] => some (p, [])
  | v :: vs =>
    match p.next v with
    | none => none
    | some (q, s) =>
      match processSeqSpec q vs with
      | none => none
      | some (q2, sigs) => some (q2, s :: sigs)

/-- True arithmetic mean of a list of values. -/
def trueMean (l : List ℚ) : ℚ := l.sum / (l.length : ℚ)

/-- True population variance (divisor = length) of a list of values. -/
def truePopVariance (l : List ℚ) : ℚ :=
  ((l.map (fun x => (x - trueMean l) ^ 2)).sum) / (l.length : ℚ)

/-- Sum of squares of a list of values. -/
def sumSq (l : List ℚ) : ℚ := (l.map (fun x => x ^ 2)).sum

/-- Pointwise negation of a `movingMeanStdDev` state (variance is even, so it
is unchanged). -/
def MovingMeanStdDev.negState (m : MovingMeanStdDev) : MovingMeanStdDev :=
  { m with cache := m.cache.map (fun y => -y), prevMean := -m.prevMean }

/-- Pointwise negation of a `peakDetector` state. -/
def PeakDetector.negState (p : PeakDetector) : PeakDetector :=
  { p with
      movingMeanStdDev := p.movingMeanStdDev.negState
      prevMean := -p.prevMean
      prevValue := -p.prevValue }

/-- The signal condition as the spec words it: the deviation `|value - mean|`
strictly exceeds `threshold * stdDev`, where `stdDev` is the real square root
of the stored variance. -/
def signalThresholdExceeded (p : PeakDetector) (v : ℚ) : Prop :=
  (p.threshold : ℝ) * Real.sqrt ((p.prevVariance : ℚ) : ℝ) < |(v : ℝ) - ((p.prevMean : ℚ) : ℝ)|

/-- Well-formedness invariant of a `movingMeanStdDev` state: the stored mean
and variance are the true mean and true population variance (in the
sum-of-squares form) of the current window contents. -/
def MMInv (m : MovingMeanStdDev) : Prop :=
  m.cache.length = m.cacheLenU ∧ 0 < m.cacheLenU ∧
  m.prevMean = m.cache.sum / (m.cacheLenU : ℚ) ∧
  m.prevVariance = sumSq m.cache / (m.cacheLenU : ℚ) - (m.cache.sum / (m.cacheLenU : ℚ)) ^ 2

theorem sumSq_dev_eq (l : List ℚ) (c : ℚ) :
    (l.map (fun x => (x - c) ^ 2)).sum = sumSq l - 2 * c * l.sum + (l.length : ℚ) * c ^ 2 := by
  induction l with
  | nil => simp [sumSq]
  | cons x xs ih =>
    simp only [sumSq, List.map_cons, List.sum_cons, List.length_cons] at ih ⊢
    rw [ih]
    push_cast
    ring

theorem truePopVariance_sub (l : List ℚ) :
    truePopVariance l = sumSq l / (l.length : ℚ) - (l.sum / (l.length : ℚ)) ^ 2 := by
  rcases eq_or_ne l [] with rfl | h
  · simp [truePopVariance, sumSq]
  · have hn : ((l.length : ℕ) : ℚ) ≠ 0 :=
      (Nat.cast_pos.mpr (List.length_pos.mpr h)).ne'
    rw [truePopVariance, sumSq_dev_eq, trueMean]
    field_simp
    ring

theorem truePopVariance_nonneg (l : List ℚ) : 0 ≤ truePopVariance l := by
  apply div_nonneg
  · apply List.sum_nonneg
    intro y hy
    obtain ⟨z, _, rfl⟩ := List.mem_map.mp hy
    positivity
  · positivity

theorem welford_foldl (xs : List ℚ) : ∀ (s q : ℚ) (k : ℕ), 0 < k →
    xs.foldl welfordStep (s / (k : ℚ), q - s ^ 2 / (k : ℚ), k) =
      ((s + xs.sum) / ((k + xs.length : ℕ) : ℚ),
       (q + sumSq xs) - (s + xs.sum) ^ 2 / ((k + xs.length : ℕ) : ℚ),
       k + xs.length) := by
  induction xs with
  | nil => intro s q k hk; simp [sumSq]
  | cons v vs ih =>
    intro s q k hk
    have hk0 : ((k : ℕ) : ℚ) ≠ 0 := (Nat.cast_pos.mpr hk).ne'
    have hk1 : (((k + 1 : ℕ)) : ℚ) ≠ 0 := (Nat.cast_pos.mpr (Nat.succ_pos k)).ne'
    have step : welfordStep (s / (k : ℚ), q - s ^ 2 / (k : ℚ), k) v =
        ((s + v) / ((k + 1 : ℕ) : ℚ), (q + v ^ 2) - (s + v) ^ 2 / ((k + 1 : ℕ) : ℚ), k + 1) := by
      simp only [welfordStep, Prod.mk.injEq]
      refine ⟨?_, ?_, trivial⟩
      · push_cast
        field_simp
        ring
      · push_cast
        field_simp
        ring
    rw [List.foldl_cons, step, ih (s + v) (q + v ^ 2) (k + 1) (Nat.succ_pos k)]
    have hnat : k + 1 + vs.length = k + (vs.length + 1) := by omega
    simp only [sumSq, List.map_cons, List.sum_cons, List.length_cons, hnat, Prod.mk.injEq]
    refine ⟨by ring, by ring, trivial⟩

theorem MM_initialize_eq (m : MovingMeanStdDev) (x : ℚ) (xs : List ℚ) :
    m.initialise (x :: xs) =
      some ({ m with
                cache := x :: xs
                cacheLenU := xs.length + 1
                prevMean := trueMean (x :: xs)
                prevVariance := truePopVariance (x :: xs) },
            trueMean (x :: xs), truePopVariance (x :: xs)) := by
  have hn : ((xs.length : ℚ) + 1) ≠ 0 := by positivity
  have hfold := welford_foldl xs x (x ^ 2) 1 Nat.one_pos
  norm_num at hfold
  have hmean : (x + xs.sum) / (1 + (xs.length : ℚ)) = trueMean (x :: xs) := by
    rw [trueMean]
    simp only [List.sum_cons, List.length_cons]
    push_cast
    ring_nf
  have hvar : (x ^ 2 + sumSq xs - (x + xs.sum) ^ 2 / (1 + (xs.length : ℚ))) /
      ((xs.length + 1 : ℕ) : ℚ) = truePopVariance (x :: xs) := by
    rw [truePopVariance_sub]
    simp only [sumSq, List.map_cons, List.sum_cons, List.length_cons]
    push_cast
    field_simp
    ring
  simp only [MovingMeanStdDev.initialise, hfold, hmean, hvar]

theorem MM_next_eq (m : MovingMeanStdDev) (v old : ℚ)
    (h : m.cache[m.index]? = some old) :
    m.next v =
      some ({ m with
                cache := m.cache.set m.index v
                index := if m.index + 1 = m.cacheLenU then 0 else m.index + 1
                prevMean := m.prevMean + (v - old) / (m.cacheLenU : ℚ)
                prevVariance := m.prevVariance +
                  (v - (m.prevMean + (v - old) / (m.cacheLenU : ℚ)) + old - m.prevMean) *
                    (v - old) / (m.cacheLenU : ℚ) },
            m.prevMean + (v - old) / (m.cacheLenU : ℚ),
            m.prevVariance +
              (v - (m.prevMean + (v - old) / (m.cacheLenU : ℚ)) + old - m.prevMean) *
                (v - old) / (m.cacheLenU : ℚ)) := by
  simp only [MovingMeanStdDev.next, h]

theorem MM_next_MMInv (m : MovingMeanStdDev) (v : ℚ) (m' : MovingMeanStdDev)
    (mean var : ℚ) (hm : MMInv m) (h : m.next v = some (m', mean, var)) : MMInv m' := by
  obtain ⟨hlen, hpos, hmean, hvar⟩ := hm
  cases hidx : m.cache[m.index]? with
  | none => simp [MovingMeanStdDev.next, hidx] at h
  | some old =>
    rw [MM_next_eq m v old hidx] at h
    obtain ⟨hi, hold⟩ := List.getElem?_eq_some.mp hidx
    injection h with h1
    simp only [Prod.mk.injEq] at h1
    obtain ⟨hA, hB, hC⟩ := h1
    subst hA
    have hn : ((m.cacheLenU : ℕ) : ℚ) ≠ 0 := (Nat.cast_pos.mpr hpos).ne'
    have hsum : (m.cache.set m.index v).sum = m.cache.sum - old + v := by
      rw [List.sum_set']
      rw [dif_pos hi, hold]
      ring
    have hsumSq : sumSq (m.cache.set m.index v) = sumSq m.cache - old ^ 2 + v ^ 2 := by
      rw [sumSq, List.map_set, List.sum_set']
      have hi2 : m.index < (m.cache.map (fun x => x ^ 2)).length := by
        simpa using hi
      rw [dif_pos hi2]
      have : (m.cache.map (fun x => x ^ 2))[m.index] = old ^ 2 := by
        rw [List.getElem_map]
        rw [hold]
      rw [this, sumSq]
      ring
    refine ⟨?_, hpos, ?_, ?_⟩
    · simpa using hlen
    · simp only [hsum, hmean]
      field_simp
      ring
    · simp only [hsum, hsumSq, hvar, hmean]
      field_simp
      ring

theorem MM_updates_MMInv (vs : List ℚ) : ∀ (m m' : MovingMeanStdDev),
    MMInv m → m.updates vs = some m' → MMInv m' := by
  induction vs with
  | nil => intro m m' hm h; simp [MovingMeanStdDev.updates] at h; rwa [← h]
  | cons v vs ih =>
    intro m m' hm h
    simp only [MovingMeanStdDev.updates] at h
    cases hnext : m.next v with
    | none => rw [hnext] at h; simp at h
    | some r =>
      rw [hnext] at h
      exact ih r.1 m' (MM_next_MMInv m v r.1 r.2.1 r.2.2 hm (by rw [hnext])) h

/-- C1: under exact arithmetic, after seeding the sliding statistics with any
non-empty sequence and any finite sequence of subsequent updates, the stored
mean is the true mean of the window, the stored variance is the true
population variance of the window, and the variance is non-negative. -/
theorem sliding_stats_exact_invariant (seed vs : List ℚ) (m1 : MovingMeanStdDev)
    (mean var : ℚ) (m' : MovingMeanStdDev)
    (h1 : MovingMeanStdDev.new.initialise seed = some (m1, mean, var))
    (h2 : m1.updates vs = some m') :
    m'.prevMean = trueMean m'.cache ∧ m'.prevVariance = truePopVariance m'.cache ∧
      0 ≤ m'.prevVariance := by
  have hm1 : MMInv m1 := by
    cases seed with
    | nil => simp [MovingMeanStdDev.initialise] at h1
    | cons x xs =>
      rw [MM_initialize_eq] at h1
      injection h1 with h
      simp only [Prod.mk.injEq] at h
      obtain ⟨hA, hB, hC⟩ := h
      subst hA
      refine ⟨by simp, Nat.succ_pos _, ?_, ?_⟩
      · show trueMean (x :: xs) = (x :: xs).sum / ((xs.length + 1 : ℕ) : ℚ)
        rw [trueMean]
        simp
      · show truePopVariance (x :: xs) = _
        rw [truePopVariance_sub]
        simp
  have hm' : MMInv m' := MM_updates_MMInv vs m1 m' hm1 h2
  obtain ⟨hlen, hpos, hmean, hvar⟩ := hm'
  have hv : m'.prevVariance = truePopVariance m'.cache := by
    rw [truePopVariance_sub, hlen]
    exact hvar
  refine ⟨?_, hv, ?_⟩
  · rw [trueMean, hlen]
    exact hmean
  · rw [hv]
    exact truePopVariance_nonneg _

/-- Witness for C1: seed `[0, 1]` then one update with `2`. -/
theorem sliding_stats_exact_invariant_witness :
    (⟨[2, 1], 2, 1, 3/2, 1/4⟩ : MovingMeanStdDev).prevMean =
        trueMean (⟨[2, 1], 2, 1, 3/2, 1/4⟩ : MovingMeanStdDev).cache ∧
    (⟨[2, 1], 2, 1, 3/2, 1/4⟩ : MovingMeanStdDev).prevVariance =
        truePopVariance (⟨[2, 1], 2, 1, 3/2, 1/4⟩ : MovingMeanStdDev).cache ∧
    (0 : ℚ) ≤ (⟨[2, 1], 2, 1, 3/2, 1/4⟩ : MovingMeanStdDev).prevVariance :=
  sliding_stats_exact_invariant [0, 1] [2]
    ⟨[0, 1], 2, 0, 1/2, 1/4⟩ (1/2) (1/4) ⟨[2, 1], 2, 1, 3/2, 1/4⟩
    (by norm_num [MovingMeanStdDev.initialise, MovingMeanStdDev.new, welfordStep, List.foldl])
    (by norm_num [MovingMeanStdDev.updates, MovingMeanStdDev.next])

/-- Faithfulness of the embedded guard: for `0 ≤ a` and `0 ≤ x`,
`gtMulSqrt a t x` decides exactly the real-number comparison
`a > t * sqrt x` that the Go code performs with
`math.Abs(value-mean) > threshold*stdDev`. -/
theorem gtMulSqrt_iff_real (a t x : ℚ) (ha : 0 ≤ a) (hx : 0 ≤ x) :
    gtMulSqrt a t x = true ↔ (t : ℝ) * Real.sqrt (x : ℝ) < (a : ℝ) := by
  have hxR : (0 : ℝ) ≤ (x : ℝ) := by exact_mod_cast hx
  have haR : (0 : ℝ) ≤ (a : ℝ) := by exact_mod_cast ha
  have hs : (0 : ℝ) ≤ Real.sqrt (x : ℝ) := Real.sqrt_nonneg _
  have hsq : Real.sqrt (x : ℝ) ^ 2 = (x : ℝ) := Real.sq_sqrt hxR
  rw [gtMulSqrt, if_neg (not_lt.mpr hx)]
  by_cases ht : 0 ≤ t
  · rw [if_pos ht]
    have htR : (0 : ℝ) ≤ (t : ℝ) := by exact_mod_cast ht
    simp only [decide_eq_true_eq]
    constructor
    · intro hlt
      have hltR : (t : ℝ) ^ 2 * (x : ℝ) < (a : ℝ) ^ 2 := by exact_mod_cast hlt
      by_contra hc
      push_neg at hc
      nlinarith [mul_nonneg htR hs]
    · intro hlt
      have hR : (t : ℝ) ^ 2 * (x : ℝ) < (a : ℝ) ^ 2 := by nlinarith [mul_nonneg htR hs]
      exact_mod_cast hR
  · rw [if_neg ht]
    push_neg at ht
    have htR : (t : ℝ) < 0 := by exact_mod_cast ht
    simp only [decide_eq_true_eq]
    constructor
    · rintro (hA | hX)
      · have hAR : (0 : ℝ) < (a : ℝ) := by exact_mod_cast hA
        nlinarith
      · have hXR : (0 : ℝ) < (x : ℝ) := by exact_mod_cast hX
        have hsp : 0 < Real.sqrt (x : ℝ) := Real.sqrt_pos.mpr hXR
        nlinarith
    · intro hlt
      by_contra hc
      push_neg at hc
      obtain ⟨h1, h2⟩ := hc
      have hax : a = 0 := le_antisymm h1 ha
      have hxx : x = 0 := le_antisymm h2 hx
      subst hax
      subst hxx
      norm_num at hlt

/-- Unfolding of a successful `peakDetector.Next` call: the emitted signal,
the folded value, the window write, and the configuration fields. -/
theorem PD_next_spec (p : PeakDetector) (v : ℚ) (p' : PeakDetector) (s : Signal)
    (h : p.next v = some (p', s)) :
    s = (if gtMulSqrt |v - p.prevMean| p.threshold p.prevVariance then
          (if p.prevMean < v then Signal.positive else Signal.negative)
         else Signal.neutral) ∧
    p'.prevValue = (if gtMulSqrt |v - p.prevMean| p.threshold p.prevVariance then
          p.influence * v + (1 - p.influence) * p.prevValue
         else v) ∧
    p'.movingMeanStdDev.cache =
      p.movingMeanStdDev.cache.set p.movingMeanStdDev.index p'.prevValue ∧
    p'.threshold = p.threshold ∧ p'.influence = p.influence ∧ p'.lag = p.lag := by
  simp only [PeakDetector.next] at h
  cases hidx : p.movingMeanStdDev.cache[p.movingMeanStdDev.index]? with
  | none =>
    simp only [MovingMeanStdDev.next, hidx] at h
    exact absurd h (by simp)
  | some old =>
    rw [MM_next_eq p.movingMeanStdDev _ old hidx] at h
    injection h with h1
    simp only [Prod.mk.injEq] at h1
    obtain ⟨hA, hB⟩ := h1
    subst hB
    subst hA
    refine ⟨rfl, rfl, rfl, rfl, rfl, rfl⟩

/-- The embedded boolean guard agrees with the spec-worded real guard on any
state with non-negative stored variance. -/
theorem guard_iff (p : PeakDetector) (v : ℚ) (hvar : 0 ≤ p.prevVariance) :
    gtMulSqrt |v - p.prevMean| p.threshold p.prevVariance = true ↔
      signalThresholdExceeded p v := by
  rw [gtMulSqrt_iff_real _ _ _ (abs_nonneg _) hvar, signalThresholdExceeded]
  have hcast : ((|v - p.prevMean| : ℚ) : ℝ) = |(v : ℝ) - ((p.prevMean : ℚ) : ℝ)| := by
    push_cast
    ring_nf
  rw [hcast]

/-- C2: a successful `process` call classifies with the pre-update mean and
standard deviation: `Positive` iff the deviation strictly exceeds
`threshold * stdDev` and the value is above the mean, `Negative` iff it
exceeds and the value is at most the mean, `Neutral` otherwise; on a signal
the folded value is `influence*v + (1-influence)*lastFoldedValue`, and on
`Neutral` the raw value is folded in unchanged. -/
theorem next_classification (p : PeakDetector) (v : ℚ) (p' : PeakDetector) (s : Signal)
    (hvar : 0 ≤ p.prevVariance) (h : p.next v = some (p', s)) :
    (s = Signal.positive ↔ signalThresholdExceeded p v ∧ p.prevMean < v) ∧
    (s = Signal.negative ↔ signalThresholdExceeded p v ∧ v ≤ p.prevMean) ∧
    (s = Signal.neutral ↔ ¬ signalThresholdExceeded p v) ∧
    (signalThresholdExceeded p v →
      p'.prevValue = p.influence * v + (1 - p.influence) * p.prevValue) ∧
    (¬ signalThresholdExceeded p v → p'.prevValue = v) ∧
    p'.movingMeanStdDev.cache =
      p.movingMeanStdDev.cache.set p.movingMeanStdDev.index p'.prevValue := by
  obtain ⟨hs, hval, hcache, -, -, -⟩ := PD_next_spec p v p' s h
  have hiff := guard_iff p v hvar
  cases hG : gtMulSqrt |v - p.prevMean| p.threshold p.prevVariance with
  | false =>
    have hnot : ¬ signalThresholdExceeded p v := by
      rw [← hiff, hG]
      simp
    rw [hG] at hs hval
    simp only [Bool.false_eq_true, if_false] at hs hval
    subst hs
    exact ⟨by simp [hnot], by simp [hnot], by simp [hnot],
      fun hyes => absurd hyes hnot, fun _ => hval, hcache⟩
  | true =>
    have hyes : signalThresholdExceeded p v := by
      rw [← hiff, hG]
    rw [hG] at hs hval
    simp only [if_true] at hs hval
    by_cases hmv : p.prevMean < v
    · rw [if_pos hmv] at hs
      subst hs
      exact ⟨by simp [hyes, hmv], by simp [not_le.mpr hmv], by simp [hyes],
        fun _ => hval, fun hn => absurd hyes hn, hcache⟩
    · rw [if_neg hmv] at hs
      subst hs
      exact ⟨by simp [hmv], by simp [hyes, not_lt.mp hmv], by simp [hyes],
        fun _ => hval, fun hn => absurd hyes hn, hcache⟩

/-- Witness for C2 at a concrete positive signal with `influence = 1/2`. -/
theorem next_classification_witness :
    ((Signal.positive = Signal.positive ↔
        signalThresholdExceeded ((NewPeakDetector.initialise (1/2) 1 [0, 1]).1) 2 ∧
        ((NewPeakDetector.initialise (1/2) 1 [0, 1]).1).prevMean < 2) ∧
     (Signal.positive = Signal.negative ↔
        signalThresholdExceeded ((NewPeakDetector.initialise (1/2) 1 [0, 1]).1) 2 ∧
        (2 : ℚ) ≤ ((NewPeakDetector.initialise (1/2) 1 [0, 1]).1).prevMean) ∧
     (Signal.positive = Signal.neutral ↔
        ¬ signalThresholdExceeded ((NewPeakDetector.initialise (1/2) 1 [0, 1]).1) 2) ∧
     (signalThresholdExceeded ((NewPeakDetector.initialise (1/2) 1 [0, 1]).1) 2 →
        (⟨1, 1/2, 2, ⟨[3/2, 1], 2, 1, 5/4, 1/16⟩, 5/4, 1/16, 3/2, 1⟩ :
          PeakDetector).prevValue =
          ((NewPeakDetector.initialise (1/2) 1 [0, 1]).1).influence * 2 +
            (1 - ((NewPeakDetector.initialise (1/2) 1 [0, 1]).1).influence) *
              ((NewPeakDetector.initialise (1/2) 1 [0, 1]).1).prevValue) ∧
     (¬ signalThresholdExceeded ((NewPeakDetector.initialise (1/2) 1 [0, 1]).1) 2 →
        (⟨1, 1/2, 2, ⟨[3/2, 1], 2, 1, 5/4, 1/16⟩, 5/4, 1/16, 3/2, 1⟩ :
          PeakDetector).prevValue = 2) ∧
     (⟨1, 1/2, 2, ⟨[3/2, 1], 2, 1, 5/4, 1/16⟩, 5/4, 1/16, 3/2, 1⟩ :
        PeakDetector).movingMeanStdDev.cache =
       ((NewPeakDetector.initialise (1/2) 1 [0, 1]).1).movingMeanStdDev.cache.set
         ((NewPeakDetector.initialise (1/2) 1 [0, 1]).1).movingMeanStdDev.index
         (⟨1, 1/2, 2, ⟨[3/2, 1], 2, 1, 5/4, 1/16⟩, 5/4, 1/16, 3/2, 1⟩ :
           PeakDetector).prevValue) :=
  next_classification ((NewPeakDetector.initialise (1/2) 1 [0, 1]).1) 2
    ⟨1, 1/2, 2, ⟨[3/2, 1], 2, 1, 5/4, 1/16⟩, 5/4, 1/16, 3/2, 1⟩ Signal.positive
    (by norm_num [NewPeakDetector, PeakDetector.initialise, MovingMeanStdDev.initialise,
      MovingMeanStdDev.new, welfordStep, List.foldl])
    (by norm_num [NewPeakDetector, PeakDetector.initialise, PeakDetector.next,
      MovingMeanStdDev.initialise, MovingMeanStdDev.new, MovingMeanStdDev.next,
      welfordStep, gtMulSqrt, List.foldl])

/-- C3: `Initialize` fails with `InvalidSeed` iff the seed is empty; any
non-empty seed succeeds for every influence and threshold (no validation of
either), and on success the window size equals the seed length and
`lastFoldedValue` is the final seed value. -/
theorem initialize_error_iff (p : PeakDetector) (influence threshold : ℚ)
    (vals : List ℚ) :
    ((p.initialise influence threshold vals).2 = some InitError.invalidInitialValues ↔
      vals = []) ∧
    (vals ≠ [] →
      (p.initialise influence threshold vals).2 = none ∧
      (p.initialise influence threshold vals).1.movingMeanStdDev.cacheLenU = vals.length ∧
      (p.initialise influence threshold vals).1.lag = vals.length ∧
      (p.initialise influence threshold vals).1.prevValue = vals.getLastD 0) := by
  cases vals with
  | nil => simp [PeakDetector.initialise, MovingMeanStdDev.initialise]
  | cons x xs =>
    simp [PeakDetector.initialise, MM_initialize_eq]

/-- C4 (amended): at `influence = 0`, a signal folds exactly
`lastFoldedValue` into the window (the raw value never enters), so
`prevValue` is unchanged and the slot at the cursor is overwritten with
`prevValue`.  The window contents can still change, because the folded copy
replaces the evicted oldest slot (see the counterexample). -/
theorem influence_zero_signal_folds_prevValue (p : PeakDetector) (v : ℚ)
    (p' : PeakDetector) (s : Signal) (hinf : p.influence = 0)
    (h : p.next v = some (p', s)) (hs : s ≠ Signal.neutral) :
    p'.prevValue = p.prevValue ∧
    p'.movingMeanStdDev.cache =
      p.movingMeanStdDev.cache.set p.movingMeanStdDev.index p.prevValue := by
  obtain ⟨hsig, hval, hcache, -, -, -⟩ := PD_next_spec p v p' s h
  cases hG : gtMulSqrt |v - p.prevMean| p.threshold p.prevVariance with
  | false =>
    rw [hG] at hsig
    simp only [Bool.false_eq_true, if_false] at hsig
    exact absurd hsig hs
  | true =>
    rw [hG] at hval
    simp only [if_true] at hval
    rw [hinf] at hval
    have hv : p'.prevValue = p.prevValue := by rw [hval]; ring
    exact ⟨hv, by rw [hcache, hv]⟩

/-- C5 (amended): a call to `Initialize` with an empty seed returns the
`InvalidSeed` error and leaves every field unchanged EXCEPT `lag`, which is
overwritten with 0 (the empty seed length) before the emptiness check.  For
a never-initialized detector the state is unchanged since `lag` was already
0; for a previously initialized detector `lag` is clobbered (see the
counterexample). -/
theorem initialize_empty_seed_effect (p : PeakDetector) (influence threshold : ℚ) :
    p.initialise influence threshold [] =
      ({ p with lag := 0 }, some InitError.invalidInitialValues) := by
  simp [PeakDetector.initialise, MovingMeanStdDev.initialise]

/-- C6 (amended): every successful `update` replaces exactly the value at
the cursor, advances the cursor modulo W, and applies the stated incremental
recurrence; it returns the new mean and the new variance, whose square root
the Go code takes WITHOUT clamping (`math.Sqrt(m.prevVariance)`), so a
negative variance propagates NaN (see the counterexample). -/
theorem update_recurrence (m : MovingMeanStdDev) (v : ℚ) (m' : MovingMeanStdDev)
    (mean var : ℚ) (hlen : m.cache.length = m.cacheLenU)
    (h : m.next v = some (m', mean, var)) :
    ∃ old, m.cache[m.index]? = some old ∧
      m'.cache = m.cache.set m.index v ∧
      m'.index = (m.index + 1) % m.cacheLenU ∧
      mean = m.prevMean + (v - old) / (m.cacheLenU : ℚ) ∧
      var = m.prevVariance + (v - mean + old - m.prevMean) * (v - old) / (m.cacheLenU : ℚ) ∧
      m'.prevMean = mean ∧ m'.prevVariance = var := by
  cases hidx : m.cache[m.index]? with
  | none =>
    simp only [MovingMeanStdDev.next, hidx] at h
    exact absurd h (by simp)
  | some old =>
    rw [MM_next_eq m v old hidx] at h
    injection h with h1
    simp only [Prod.mk.injEq] at h1
    obtain ⟨hA, hmean, hvar⟩ := h1
    subst hA
    subst hmean
    subst hvar
    have hi : m.index < m.cache.length := (List.getElem?_eq_some.mp hidx).1
    rw [hlen] at hi
    refine ⟨old, rfl, rfl, ?_, rfl, rfl, rfl, rfl⟩
    show (if m.index + 1 = m.cacheLenU then 0 else m.index + 1) = (m.index + 1) % m.cacheLenU
    by_cases he : m.index + 1 = m.cacheLenU
    · rw [if_pos he, he, Nat.mod_self]
    · rw [if_neg he, Nat.mod_eq_of_lt (by omega)]

theorem foldl_nextBatchStep_none (vs : List ℚ) :
    vs.foldl nextBatchStep none = none := by
  induction vs with
  | nil => rfl
  | cons v vs ih => rw [List.foldl_cons]; exact ih

theorem foldl_nextBatchStep (vs : List ℚ) : ∀ (p : PeakDetector) (sigs : List Signal),
    vs.foldl nextBatchStep (some (p, sigs)) =
      (processSeqSpec p vs).map (fun r => (r.1, sigs ++ r.2)) := by
  induction vs with
  | nil => intro p sigs; simp [processSeqSpec]
  | cons v vs ih =>
    intro p sigs
    rw [List.foldl_cons]
    cases hnext : p.next v with
    | none =>
      simp only [nextBatchStep, hnext]
      rw [foldl_nextBatchStep_none]
      simp only [processSeqSpec, hnext]
      rfl
    | some q =>
      obtain ⟨q, s⟩ := q
      simp only [nextBatchStep, hnext]
      rw [ih q (sigs ++ [s])]
      simp only [processSeqSpec, hnext]
      cases hseq : processSeqSpec q vs with
      | none => rfl
      | some r2 =>
        obtain ⟨r2, out⟩ := r2
        simp [List.append_assoc]

theorem processSeqSpec_length (values : List ℚ) :
    ∀ (p : PeakDetector) (r : PeakDetector × List Signal),
      processSeqSpec p values = some r → r.2.length = values.length := by
  induction values with
  | nil =>
    intro p r h
    simp only [processSeqSpec, Option.some.injEq] at h
    rw [← h]
    rfl
  | cons v vs ih =>
    intro p r h
    cases hnext : p.next v with
    | none =>
      simp only [processSeqSpec, hnext] at h
      exact absurd h (by simp)
    | some q =>
      obtain ⟨q, s⟩ := q
      simp only [processSeqSpec, hnext] at h
      cases hseq : processSeqSpec q vs with
      | none =>
        simp only [hseq] at h
        exact absurd h (by simp)
      | some r2 =>
        obtain ⟨r2, out⟩ := r2
        simp only [hseq, Option.some.injEq] at h
        rw [← h]
        simp only [List.length_cons]
        rw [ih q (r2, out) hseq]

theorem nextBatch_eq_processSeqSpec (p : PeakDetector) (values : List ℚ) :
    p.nextBatch values = processSeqSpec p values := by
  rw [PeakDetector.nextBatch, foldl_nextBatchStep]
  cases h : processSeqSpec p values with
  | none => rfl
  | some r => simp

/-- C7: `processBatch` equals sequential `process` calls: it returns exactly
the sequence of signals the sequential calls produce (including the final
detector state), and the output length equals the input length. -/
theorem nextBatch_refines_sequential (p : PeakDetector) (values : List ℚ) :
    p.nextBatch values = processSeqSpec p values ∧
    ∀ r, p.nextBatch values = some r → r.2.length = values.length := by
  refine ⟨nextBatch_eq_processSeqSpec p values, ?_⟩
  rw [nextBatch_eq_processSeqSpec p values]
  intro r h
  exact processSeqSpec_length values p r h

theorem welfordStep_neg (acc : ℚ × ℚ × ℕ) (v : ℚ) :
    welfordStep (-acc.1, acc.2.1, acc.2.2) (-v) =
      (-(welfordStep acc v).1, (welfordStep acc v).2.1, (welfordStep acc v).2.2) := by
  simp only [welfordStep, Prod.mk.injEq]
  refine ⟨by ring, by ring, trivial⟩

theorem welford_foldl_neg (xs : List ℚ) : ∀ (a q : ℚ) (k : ℕ),
    (xs.map (fun y => -y)).foldl welfordStep (-a, q, k) =
      (-(xs.foldl welfordStep (a, q, k)).1, (xs.foldl welfordStep (a, q, k)).2.1,
        (xs.foldl welfordStep (a, q, k)).2.2) := by
  induction xs with
  | nil => intro a q k; rfl
  | cons v vs ih =>
    intro a q k
    simp only [List.map_cons, List.foldl_cons]
    rw [welfordStep_neg (a, q, k) v, ih (welfordStep (a, q, k) v).1
      (welfordStep (a, q, k) v).2.1 (welfordStep (a, q, k) v).2.2]

theorem MM_initialize_neg (m : MovingMeanStdDev) (l : List ℚ) :
    (m.negState).initialise (l.map (fun y => -y)) =
      (m.initialise l).map (fun r => (r.1.negState, -r.2.1, r.2.2)) := by
  cases l with
  | nil => rfl
  | cons x xs =>
    simp only [List.map_cons, MovingMeanStdDev.initialise]
    rw [welford_foldl_neg xs x 0 1]
    simp only [List.length_map, Option.map_some']
    simp [MovingMeanStdDev.negState]

theorem MM_next_neg (m : MovingMeanStdDev) (v : ℚ) :
    (m.negState).next (-v) = (m.next v).map (fun r => (r.1.negState, -r.2.1, r.2.2)) := by
  cases hidx : m.cache[m.index]? with
  | none =>
    have h2 : (m.negState).cache[(m.negState).index]? = none := by
      simp [MovingMeanStdDev.negState, List.getElem?_map, hidx]
    simp [MovingMeanStdDev.next, hidx, h2]
  | some old =>
    have h2 : (m.negState).cache[(m.negState).index]? = some (-old) := by
      simp [MovingMeanStdDev.negState, List.getElem?_map, hidx]
    rw [MM_next_eq (m.negState) (-v) (-old) h2, MM_next_eq m v old hidx]
    simp only [Option.map_some']
    simp only [MovingMeanStdDev.negState]
    simp only [Option.some.injEq, Prod.mk.injEq, MovingMeanStdDev.mk.injEq, List.map_set]
    refine ⟨⟨?_, ?_, ?_, ?_, ?_⟩, ?_, ?_⟩ <;> first
      | trivial
      | ring

theorem getLastD_map_neg (l : List ℚ) : ∀ (d : ℚ),
    (l.map (fun y => -y)).getLastD (-d) = -(l.getLastD d) := by
  induction l with
  | nil => intro d; rfl
  | cons x xs ih =>
    intro d
    simp only [List.map_cons, List.getLastD_cons]
    exact ih x

theorem PD_initialize_threshold (p : PeakDetector) (influence threshold : ℚ)
    (x : ℚ) (xs : List ℚ) :
    (p.initialise influence threshold (x :: xs)).1.threshold = threshold := by
  simp [PeakDetector.initialise, MM_initialize_eq]

theorem PD_initialize_eq (p : PeakDetector) (influence threshold : ℚ)
    (x : ℚ) (xs : List ℚ) :
    p.initialise influence threshold (x :: xs) =
      (⟨p.index, influence, xs.length + 1,
        ⟨x :: xs, xs.length + 1, p.movingMeanStdDev.index, trueMean (x :: xs),
          truePopVariance (x :: xs)⟩,
        trueMean (x :: xs), truePopVariance (x :: xs), (x :: xs).getLastD 0,
        threshold⟩, none) := by
  simp [PeakDetector.initialise, MM_initialize_eq]

theorem trueMean_neg_cons (x : ℚ) (xs : List ℚ) :
    trueMean (-x :: xs.map (fun y => -y)) = -trueMean (x :: xs) := by
  rw [show (-x :: xs.map (fun y => -y)) = (x :: xs).map (fun y => -y) from
    (List.map_cons _ _ _).symm]
  rw [trueMean, trueMean, List.length_map, Eq.symm (List.sum_neg (x :: xs)), neg_div]

theorem truePopVariance_neg_cons (x : ℚ) (xs : List ℚ) :
    truePopVariance (-x :: xs.map (fun y => -y)) = truePopVariance (x :: xs) := by
  rw [show (-x :: xs.map (fun y => -y)) = (x :: xs).map (fun y => -y) from
    (List.map_cons _ _ _).symm]
  rw [truePopVariance_sub, truePopVariance_sub, List.length_map,
    Eq.symm (List.sum_neg (x :: xs))]
  have hsq : sumSq ((x :: xs).map (fun y => -y)) = sumSq (x :: xs) := by
    rw [sumSq, sumSq, List.map_map]
    simp [Function.comp_def, neg_sq]
  rw [hsq, neg_div, neg_sq]

theorem getLastD_neg_cons (x : ℚ) (xs : List ℚ) :
    (-x :: xs.map (fun y => -y)).getLastD 0 = -((x :: xs).getLastD 0) := by
  have h := getLastD_map_neg (x :: xs) 0
  simpa [List.map_cons, neg_zero] using h

theorem PD_initialize_neg (p : PeakDetector) (influence threshold : ℚ) (l : List ℚ) :
    (p.negState).initialise influence threshold (l.map (fun y => -y)) =
      ((p.initialise influence threshold l).1.negState,
        (p.initialise influence threshold l).2) := by
  cases l with
  | nil =>
    simp only [List.map_nil]
    rfl
  | cons x xs =>
    rw [List.map_cons, PD_initialize_eq, PD_initialize_eq]
    simp only [Prod.mk.injEq]
    refine ⟨?_, trivial⟩
    simp only [PeakDetector.negState, MovingMeanStdDev.negState,
      PeakDetector.mk.injEq, MovingMeanStdDev.mk.injEq]
    simp [trueMean_neg_cons, truePopVariance_neg_cons, List.length_map]
    rw [← List.getLastD_eq_getLast?, ← List.getLastD_eq_getLast?]
    exact getLastD_neg_cons x xs

theorem PD_next_neg (p : PeakDetector) (v : ℚ) (ht : 0 ≤ p.threshold) :
    (p.negState).next (-v) = (p.next v).map (fun r => (r.1.negState, r.2.flip)) := by
  have hguard : gtMulSqrt |(-v) - (p.negState).prevMean| (p.negState).threshold
      (p.negState).prevVariance = gtMulSqrt |v - p.prevMean| p.threshold p.prevVariance := by
    have habs : |(-v) - (p.negState).prevMean| = |v - p.prevMean| := by
      simp only [PeakDetector.negState]
      rw [show (-v - -p.prevMean) = -(v - p.prevMean) from by ring, abs_neg]
    rw [habs]
    rfl
  simp only [PeakDetector.next, hguard]
  cases hG : gtMulSqrt |v - p.prevMean| p.threshold p.prevVariance with
  | false =>
    simp only [Bool.false_eq_true, if_false]
    rw [show (p.negState).movingMeanStdDev = p.movingMeanStdDev.negState from rfl,
      MM_next_neg]
    cases hmm : p.movingMeanStdDev.next v with
    | none => rfl
    | some r =>
      simp only [Option.map_some']
      simp [PeakDetector.negState, Signal.flip, PeakDetector.mk.injEq]
  | true =>
    have hvne : ¬(v - p.prevMean = 0) := by
      intro he
      rw [he, abs_zero, gtMulSqrt] at hG
      by_cases hx : p.prevVariance < 0
      · rw [if_pos hx] at hG
        exact Bool.false_ne_true hG
      · rw [if_neg hx, if_pos ht] at hG
        have hle : (0 : ℚ) ≤ p.threshold ^ 2 * p.prevVariance := by
          have := not_lt.mp hx
          positivity
        simp only [decide_eq_true_eq] at hG
        nlinarith
    have hfold : (p.negState).influence * (-v) +
        (1 - (p.negState).influence) * (p.negState).prevValue =
        -(p.influence * v + (1 - p.influence) * p.prevValue) := by
      simp only [PeakDetector.negState]
      ring
    simp only [if_true, hfold]
    rw [show (p.negState).movingMeanStdDev = p.movingMeanStdDev.negState from rfl,
      MM_next_neg]
    cases hmm : p.movingMeanStdDev.next (p.influence * v + (1 - p.influence) * p.prevValue) with
    | none => rfl
    | some r =>
      simp only [Option.map_some']
      simp only [PeakDetector.negState]
      rcases lt_trichotomy v p.prevMean with hlt | heq | hgt
      · rw [if_pos (neg_lt_neg hlt), if_neg (not_lt.mpr (le_of_lt hlt))]
        simp [PeakDetector.negState, Signal.flip, PeakDetector.mk.injEq]
      · exact absurd (by rw [heq]; ring) hvne
      · rw [if_neg (not_lt.mpr (neg_le_neg (le_of_lt hgt))), if_pos hgt]
        simp [PeakDetector.negState, Signal.flip, PeakDetector.mk.injEq]

theorem processSeqSpec_neg (vs : List ℚ) : ∀ (p : PeakDetector), 0 ≤ p.threshold →
    processSeqSpec (p.negState) (vs.map (fun y => -y)) =
      (processSeqSpec p vs).map (fun r => (r.1.negState, r.2.map Signal.flip)) := by
  induction vs with
  | nil => intro p ht; simp [processSeqSpec]
  | cons v vs ih =>
    intro p ht
    simp only [List.map_cons, processSeqSpec, PD_next_neg p v ht]
    cases hnext : p.next v with
    | none => simp
    | some q =>
      obtain ⟨q, s⟩ := q
      simp only [hnext, Option.map_some']
      have hqt : q.threshold = p.threshold := (PD_next_spec p v q s hnext).2.2.2.1
      rw [ih q (by rw [hqt]; exact ht)]
      cases hseq : processSeqSpec q vs with
      | none => rfl
      | some r2 =>
        obtain ⟨r2, out⟩ := r2
        simp

/-- C8 (amended): for every influence, every NON-NEGATIVE threshold, every
non-empty seed and every stream, running one detector on the seed/stream and
another on the pointwise negation yields pointwise opposite signals
(`Positive ↔ Negative`, `Neutral ↔ Neutral`).  For negative thresholds the
claim fails (see the counterexample). -/
theorem negation_flips_signals (influence threshold : ℚ) (ht : 0 ≤ threshold)
    (seed vs : List ℚ) (hs : seed ≠ []) :
    (NewPeakDetector.initialise influence threshold (seed.map (fun y => -y))).2 = none ∧
    (NewPeakDetector.initialise influence threshold seed).2 = none ∧
    ((NewPeakDetector.initialise influence threshold (seed.map (fun y => -y))).1.nextBatch
        (vs.map (fun y => -y))).map (fun r => r.2) =
      ((NewPeakDetector.initialise influence threshold seed).1.nextBatch vs).map
        (fun r => r.2.map Signal.flip) := by
  obtain ⟨x, xs, rfl⟩ := List.exists_cons_of_ne_nil hs
  have hneg_new : NewPeakDetector.negState = NewPeakDetector := by
    simp [PeakDetector.negState, MovingMeanStdDev.negState, NewPeakDetector,
      MovingMeanStdDev.new]
  have hinit := PD_initialize_neg NewPeakDetector influence threshold (x :: xs)
  rw [hneg_new] at hinit
  refine ⟨?_, ?_, ?_⟩
  · rw [hinit]
    simp [PD_initialize_eq]
  · simp [PD_initialize_eq]
  · rw [hinit]
    rw [nextBatch_eq_processSeqSpec, nextBatch_eq_processSeqSpec]
    have hthr : (NewPeakDetector.initialise influence threshold (x :: xs)).1.threshold =
        threshold := PD_initialize_threshold NewPeakDetector influence threshold x xs
    rw [processSeqSpec_neg vs _ (by rw [hthr]; exact ht)]
    cases processSeqSpec (NewPeakDetector.initialise influence threshold (x :: xs)).1 vs <;>
      simp

/-- C9: a detector seeded with `[0, 1, 0, -1, 0]` (W = 5), `threshold = 5`,
`influence = 0` classifies the single value `-500` as `Negative`. -/
theorem negative_signal_scenario :
    ((NewPeakDetector.initialise 0 5 [0, 1, 0, -1, 0]).2 = none) ∧
    (((NewPeakDetector.initialise 0 5 [0, 1, 0, -1, 0]).1.next (-500)).map
      (fun r => r.2) = some Signal.negative) := by
  constructor <;>
    norm_num [NewPeakDetector, PeakDetector.initialise, PeakDetector.next,
      MovingMeanStdDev.initialise, MovingMeanStdDev.new, MovingMeanStdDev.next,
      welfordStep, gtMulSqrt, List.foldl]

/-- C10: re-initializing an already-used detector does not reset the sliding
window cursor: after `Initialize` with a 2-value seed, one `Next` call, and
a successful second `Initialize` with a 1-value seed, the retained cursor
(1) is outside the new window, so the following `Next` hits the
out-of-bounds branch (Go would panic); a freshly constructed detector on the
same 1-value seed processes the same value without error. -/
theorem reinitialize_cursor_out_of_bounds :
    ((((NewPeakDetector.initialise 0 0 [0, 0]).1.next 0).map Prod.fst).bind
      (fun q => ((q.initialise 0 0 [5]).1.next 0))) = none ∧
    (((NewPeakDetector.initialise 0 0 [0, 0]).1.next 0).map Prod.fst).map
      (fun q => (q.initialise 0 0 [5]).2) = some none ∧
    ((NewPeakDetector.initialise 0 0 [5]).1.next 0).isSome = true := by
  refine ⟨?_, ?_, ?_⟩ <;>
    norm_num [NewPeakDetector, PeakDetector.initialise, PeakDetector.next,
      MovingMeanStdDev.initialise, MovingMeanStdDev.new, MovingMeanStdDev.next,
      welfordStep, gtMulSqrt, List.foldl]

/-- C4 counterexample: with `influence = 0` and seed `[0, 1]`, processing 2
emits `Positive` and the window changes from `[0, 1]` to `[1, 1]` (the mean
moves from 1/2 to 1): at influence 0 a signal CAN move the window. -/
theorem influence_zero_window_moves_counterexample :
    (NewPeakDetector.initialise 0 1 [0, 1]).1.influence = 0 ∧
    (((NewPeakDetector).initialise 0 1 [0, 1]).1.next 2).map
      (fun r => (r.2, r.1.movingMeanStdDev.cache, r.1.prevMean)) =
      some (Signal.positive, [1, 1], 1) ∧
    (NewPeakDetector.initialise 0 1 [0, 1]).1.movingMeanStdDev.cache = [0, 1] ∧
    (NewPeakDetector.initialise 0 1 [0, 1]).1.prevMean = 1/2 ∧
    (([1, 1] : List ℚ) ≠ [0, 1]) ∧ ((1 : ℚ) ≠ 1/2) := by
  refine ⟨?_, ?_, ?_, ?_, ?_, ?_⟩ <;>
    norm_num [NewPeakDetector, PeakDetector.initialise, PeakDetector.next,
      MovingMeanStdDev.initialise, MovingMeanStdDev.new, MovingMeanStdDev.next,
      welfordStep, gtMulSqrt, List.foldl, List.cons.injEq]

/-- Witness for the amended C4 theorem at the concrete signal above. -/
theorem influence_zero_signal_folds_prevValue_witness :
    ((⟨1, 0, 2, ⟨[1, 1], 2, 1, 1, 0⟩, 1, 0, 1, 1⟩ : PeakDetector).prevValue =
      (NewPeakDetector.initialise 0 1 [0, 1]).1.prevValue) ∧
    ((⟨1, 0, 2, ⟨[1, 1], 2, 1, 1, 0⟩, 1, 0, 1, 1⟩ :
        PeakDetector).movingMeanStdDev.cache =
      (NewPeakDetector.initialise 0 1 [0, 1]).1.movingMeanStdDev.cache.set
        (NewPeakDetector.initialise 0 1 [0, 1]).1.movingMeanStdDev.index
        (NewPeakDetector.initialise 0 1 [0, 1]).1.prevValue) :=
  influence_zero_signal_folds_prevValue ((NewPeakDetector.initialise 0 1 [0, 1]).1) 2
    ⟨1, 0, 2, ⟨[1, 1], 2, 1, 1, 0⟩, 1, 0, 1, 1⟩ Signal.positive
    (by norm_num [NewPeakDetector, PeakDetector.initialise, MovingMeanStdDev.initialise,
      MovingMeanStdDev.new, welfordStep, List.foldl])
    (by norm_num [NewPeakDetector, PeakDetector.initialise, PeakDetector.next,
      MovingMeanStdDev.initialise, MovingMeanStdDev.new, MovingMeanStdDev.next,
      welfordStep, gtMulSqrt, List.foldl])
    (by decide)

/-- C5 counterexample: a detector initialized with `[1, 2, 3]` has `lag = 3`;
a subsequent `Initialize` with an empty seed fails with `InvalidSeed` but
leaves `lag = 0`, so the failed call DID mutate the detector state. -/
theorem failed_initialize_mutates_lag_counterexample :
    (((NewPeakDetector.initialise 0 0 [1, 2, 3]).1).initialise 0 0 []).2 =
        some InitError.invalidInitialValues ∧
    (((NewPeakDetector.initialise 0 0 [1, 2, 3]).1).initialise 0 0 []).1.lag = 0 ∧
    (NewPeakDetector.initialise 0 0 [1, 2, 3]).1.lag = 3 ∧
    (((NewPeakDetector.initialise 0 0 [1, 2, 3]).1).initialise 0 0 []).1 ≠
      (NewPeakDetector.initialise 0 0 [1, 2, 3]).1 := by
  refine ⟨?_, ?_, ?_, ?_⟩ <;>
    norm_num [NewPeakDetector, PeakDetector.initialise, MovingMeanStdDev.initialise,
      MovingMeanStdDev.new, welfordStep, List.foldl, PeakDetector.mk.injEq]

/-- C6 counterexample: from a state whose stored variance is `-1` (as a
floating-point rounding artifact could produce), `update` returns variance
`-1 < 0`; Go computes `math.Sqrt(-1) = NaN` while the claimed
`sqrt(max(variance, 0))` is 0, not NaN — there is no clamping in the code. -/
theorem update_no_clamp_counterexample :
    (MovingMeanStdDev.next ⟨[0], 1, 0, 0, -1⟩ 0).map
      (fun r => (goSqrtIsNaN r.2.2, goSqrtIsNaN (max r.2.2 0))) = some (true, false) := by
  norm_num [MovingMeanStdDev.next, goSqrtIsNaN]

/-- Witness for the amended C6 theorem at a concrete update. -/
theorem update_recurrence_witness :
    ∃ old, (⟨[0, 1], 2, 0, 1/2, 1/4⟩ : MovingMeanStdDev).cache[
        (⟨[0, 1], 2, 0, 1/2, 1/4⟩ : MovingMeanStdDev).index]? = some old ∧
      (⟨[2, 1], 2, 1, 3/2, 1/4⟩ : MovingMeanStdDev).cache =
        (⟨[0, 1], 2, 0, 1/2, 1/4⟩ : MovingMeanStdDev).cache.set
          (⟨[0, 1], 2, 0, 1/2, 1/4⟩ : MovingMeanStdDev).index 2 ∧
      (⟨[2, 1], 2, 1, 3/2, 1/4⟩ : MovingMeanStdDev).index =
        ((⟨[0, 1], 2, 0, 1/2, 1/4⟩ : MovingMeanStdDev).index + 1) %
          (⟨[0, 1], 2, 0, 1/2, 1/4⟩ : MovingMeanStdDev).cacheLenU ∧
      (3/2 : ℚ) = (⟨[0, 1], 2, 0, 1/2, 1/4⟩ : MovingMeanStdDev).prevMean +
        (2 - old) / ((⟨[0, 1], 2, 0, 1/2, 1/4⟩ : MovingMeanStdDev).cacheLenU : ℚ) ∧
      (1/4 : ℚ) = (⟨[0, 1], 2, 0, 1/2, 1/4⟩ : MovingMeanStdDev).prevVariance +
        (2 - 3/2 + old - (⟨[0, 1], 2, 0, 1/2, 1/4⟩ : MovingMeanStdDev).prevMean) *
          (2 - old) / ((⟨[0, 1], 2, 0, 1/2, 1/4⟩ : MovingMeanStdDev).cacheLenU : ℚ) ∧
      (⟨[2, 1], 2, 1, 3/2, 1/4⟩ : MovingMeanStdDev).prevMean = 3/2 ∧
      (⟨[2, 1], 2, 1, 3/2, 1/4⟩ : MovingMeanStdDev).prevVariance = 1/4 :=
  update_recurrence ⟨[0, 1], 2, 0, 1/2, 1/4⟩ 2 ⟨[2, 1], 2, 1, 3/2, 1/4⟩ (3/2) (1/4)
    rfl
    (by norm_num [MovingMeanStdDev.next])

/-- Witness for C7 at a concrete two-value batch. -/
theorem nextBatch_refines_sequential_witness :
    (NewPeakDetector.initialise 0 1 [0, 1]).1.nextBatch [2, 0] =
      processSeqSpec ((NewPeakDetector.initialise 0 1 [0, 1]).1) [2, 0] ∧
    ((⟨0, 0, 2, ⟨[1, 1], 2, 0, 1, 0⟩, 1, 0, 1, 1⟩ : PeakDetector),
      ([Signal.positive, Signal.negative] : List Signal)).2.length =
      ([2, 0] : List ℚ).length :=
  ⟨(nextBatch_refines_sequential ((NewPeakDetector.initialise 0 1 [0, 1]).1) [2, 0]).1,
   (nextBatch_refines_sequential ((NewPeakDetector.initialise 0 1 [0, 1]).1) [2, 0]).2
     (⟨0, 0, 2, ⟨[1, 1], 2, 0, 1, 0⟩, 1, 0, 1, 1⟩, [Signal.positive, Signal.negative])
     (by norm_num [NewPeakDetector, PeakDetector.initialise, PeakDetector.next,
       PeakDetector.nextBatch, nextBatchStep, MovingMeanStdDev.initialise,
       MovingMeanStdDev.new, MovingMeanStdDev.next, welfordStep, gtMulSqrt, List.foldl])⟩

/-- C8 counterexample: with `threshold = -1` and seed `[0, 1]`, processing
the value `1/2` (exactly the mean) emits `Negative`, and the negated run
(seed `[0, -1]`, value `-1/2`) ALSO emits `Negative` instead of the flipped
`Positive`: the symmetry claim fails for negative thresholds. -/
theorem negation_symmetry_counterexample :
    ((((NewPeakDetector.initialise 0 (-1) [0, 1]).1.next (1/2)).map (fun r => r.2)) =
        some Signal.negative) ∧
    ((((NewPeakDetector.initialise 0 (-1) (([0, 1] : List ℚ).map (fun y => -y))).1.next
        (-(1/2))).map (fun r => r.2)) = some Signal.negative) ∧
    some (Signal.flip Signal.negative) ≠ some Signal.negative := by
  refine ⟨?_, ?_, by decide⟩ <;>
    norm_num [NewPeakDetector, PeakDetector.initialise, PeakDetector.next,
      MovingMeanStdDev.initialise, MovingMeanStdDev.new, MovingMeanStdDev.next,
      welfordStep, gtMulSqrt, List.foldl]

/-- Witness for the amended C8 theorem at a concrete seed and stream. -/
theorem negation_flips_signals_witness :
    (NewPeakDetector.initialise 0 1 (([0, 1] : List ℚ).map (fun y => -y))).2 = none ∧
    (NewPeakDetector.initialise 0 1 [0, 1]).2 = none ∧
    ((NewPeakDetector.initialise 0 1 (([0, 1] : List ℚ).map (fun y => -y))).1.nextBatch
        (([2] : List ℚ).map (fun y => -y))).map (fun r => r.2) =
      ((NewPeakDetector.initialise 0 1 [0, 1]).1.nextBatch [2]).map
        (fun r => r.2.map Signal.flip) :=
  negation_flips_signals 0 1 (by norm_num) [0, 1] [2] (by simp)

/-- Witness for C3: influence and threshold `-1` (both outside the
documented ranges) are accepted with the non-empty seed `[7]`. -/
theorem initialize_error_iff_witness :
    ((NewPeakDetector.initialise (-1) (-1) [7]).2 = some InitError.invalidInitialValues ↔
      ([7] : List ℚ) = []) ∧
    ((NewPeakDetector.initialise (-1) (-1) [7]).2 = none ∧
      (NewPeakDetector.initialise (-1) (-1) [7]).1.movingMeanStdDev.cacheLenU =
        ([7] : List ℚ).length ∧
      (NewPeakDetector.initialise (-1) (-1) [7]).1.lag = ([7] : List ℚ).length ∧
      (NewPeakDetector.initialise (-1) (-1) [7]).1.prevValue =
        ([7] : List ℚ).getLastD 0) :=
  ⟨(initialize_error_iff NewPeakDetector (-1) (-1) [7]).1,
   (initialize_error_iff NewPeakDetector (-1) (-1) [7]).2 (by simp)⟩
